import Mathlib

/-!
Verification of the chunked PubChem batch-retrieval pipeline of the
`cinf26pk` package (modules `cinf26pk.pubchem.http`,
`cinf26pk.pubchem.properties`, `cinf26pk.pubchem.search`,
`cinf26pk.core.utils`, `cinf26pk.core.io`).

The Python code is shallowly embedded: Python strings become lists of
characters (`PyStr`), the network transport becomes an explicit stub
function passed as a parameter, `time.sleep` calls are recorded as data
(a list of requested delays, or a counter), and fallible code returns
`Except`/`Option`.  `print` side effects are not modelled.
-/

deriving instance DecidableEq for Except

namespace Cinf26

/-! ### Python string model

A Python `str` is modelled as a `List Char`.  Only the operations the
embedded code uses are defined: `"\n".join(...)`, `str.splitlines()`
(for line-feed separated text, the only separator occurring in the
modelled data), `str.lower()`, and blank testing via `str.strip()`.
-/

abbrev PyStr := List Char

/-- `"\n".join(lines)`. -/
def joinNl : List PyStr → PyStr
  | [] => []
  | [x] => x
  | x :: y :: t => x ++ '\n' :: joinNl (y :: t)

/-- Split at every line feed, keeping a (possibly empty) final segment:
the auxiliary split underlying `str.splitlines()`. -/
def splitNl : PyStr → List PyStr
  | [] => [[]]
  | c :: cs =>
    if c = '\n' then [] :: splitNl cs
    else
      match splitNl cs with
      | [] => [[c]]
      | h :: t => (c :: h) :: t

/-- `text.splitlines()` for line-feed separated text: `""` gives `[]`,
and a trailing line feed does not contribute a final empty line. -/
def pySplitlines (s : PyStr) : List PyStr :=
  if s = [] then []
  else if (splitNl s).getLast? = some [] then (splitNl s).dropLast
  else splitNl s

/-- The characters recognised by `str.strip()` / `str.isspace()`. -/
def isPySpace (c : Char) : Bool :=
  c = ' ' || c = '\t' || c = '\n' || c = '\r' ||
    c = Char.ofNat 11 || c = Char.ofNat 12

/-- Truthiness of `not s.strip()`: `true` iff `s` is empty or all
whitespace. -/
def pyBlank (s : PyStr) : Bool :=
  s.all isPySpace

/-- `s.lower()` (ASCII case folding, which covers every method string
the embedded dispatch compares against). -/
def pyLower (s : PyStr) : PyStr :=
  s.map Char.toLower

/-! ### Transport: `cinf26pk.pubchem.http`

`pubchem_get` / `pubchem_post` run a loop `for attempt in
range(1, retries + 1)`.  Each attempt either returns a payload or
raises; any raised exception is caught, a warning is printed and the
function sleeps `base_delay * attempt` seconds before the next loop
iteration.  After the loop, `None` is returned.

The network is a stub `att : Nat → Option α` mapping the (1-based)
attempt number to `some payload` (successful request, status check and
body decoding) or `none` (any exception).  The payload type `α` covers
both `return_json` modes.  Sleeps are recorded as the list of requested
durations in order; `calls` counts attempts actually performed.
-/

structure HttpRun (α : Type) where
  result : Option α
  sleeps : List Int
  calls : Nat
  deriving DecidableEq

/-- The retry loop body shared verbatim by `pubchem_get` and
`pubchem_post` (they differ only in the `requests` call made by the
stubbed attempt).  `base_delay` is an `int` in the source signature, so
the recorded sleep durations `base_delay * attempt` are integers. -/
def runAttempts (att : Nat → Option α) (base_delay : Int) :
    List Nat → HttpRun α
  | [] => ⟨none, [], 0⟩
  | k :: rest =>
    match att k with
    | some v => ⟨some v, [], 1⟩
    | none =>
      let r := runAttempts att base_delay rest
      ⟨r.result, base_delay * (k : Int) :: r.sleeps, r.calls + 1⟩

/-- `range(1, retries + 1)`: the 1-based attempt numbers. -/
def attemptNumbers (retries : Nat) : List Nat :=
  (List.range retries).map (· + 1)

/-- `pubchem_get(url, retries, timeout, base_delay, return_json)` with
the network call stubbed by `att`. -/
def pubchem_get (att : Nat → Option α) (retries : Nat) (base_delay : Int) :
    HttpRun α :=
  runAttempts att base_delay (attemptNumbers retries)

/-- `pubchem_post(url, payload, retries, timeout, base_delay,
return_json)` with the network call stubbed by `att`; the retry logic
is textually identical to `pubchem_get`. -/
def pubchem_post (att : Nat → Option α) (retries : Nat) (base_delay : Int) :
    HttpRun α :=
  runAttempts att base_delay (attemptNumbers retries)

/-! ### Batch property retrieval: `cinf26pk.pubchem.properties`

`pubchem_properties_for_cids(cid_list, properties, chunk_size,
sleep_time)` short-circuits on an empty list, computes
`num_chunks = ceil(len(cid_list) / chunk_size)`, and for
`i in range(num_chunks)` takes the slice
`cid_list[i*chunk_size : (i+1)*chunk_size]`, issues one GET per chunk,
and merges the response lines (the full line set for chunk 0, all lines
but the first for later chunks).  A `None` response appends `i` to
`failed_chunks` and `continue`s (skipping the `time.sleep(sleep_time)`
that ends the loop body).

The transport is a stub `net : List Int → Option PyStr` from the
chunk's identifiers (which determine the request URL) to the text
`pubchem_get` returned, or `none` for the failure sentinel.  The run
records the merged text, the failed chunk indices, the chunk requests
issued in order, and the number of `time.sleep(sleep_time)` calls.
-/

structure PropsRun where
  csv_output : PyStr
  failed_chunks : List Nat
  requests : List (List Int)
  throttle_sleeps : Nat
  deriving DecidableEq

/-- The `for i in tqdm(range(num_chunks))` loop of
`pubchem_properties_for_cids`, over the remaining (index, chunk) pairs,
carrying the accumulated `csv_output`, `failed_chunks`, issued
requests, and throttle-sleep count. -/
def propsLoop (net : List Int → Option PyStr) :
    List (Nat × List Int) → PyStr → List Nat → List (List Int) → Nat →
    PropsRun
  | [], csv, failed, reqs, sleeps => ⟨csv, failed, reqs, sleeps⟩
  | (i, chunk) :: rest, csv, failed, reqs, sleeps =>
    match net chunk with
    | none => propsLoop net rest csv (failed ++ [i]) (reqs ++ [chunk]) sleeps
    | some text =>
      let lines := pySplitlines text
      let csv2 :=
        if i = 0 then joinNl lines
        else csv ++ '\n' :: joinNl (lines.drop 1)
      propsLoop net rest csv2 failed (reqs ++ [chunk]) (sleeps + 1)

/-- `math.ceil(a / b)` for integer `a`, `b` with `b ≠ 0`, written with
integer floor division so that it evaluates by kernel reduction; the
lemma `pyCeilDiv_eq_ceil` below identifies it with the rational
ceiling the Python expression denotes. -/
def pyCeilDiv (a b : Int) : Int :=
  if 0 ≤ b then -(-a / b) else -(a / -b)

/-- `num_chunks = ceil(len(cid_list) / chunk_size)`. -/
def numChunksZ (n : Nat) (chunk_size : Int) : Int :=
  pyCeilDiv n chunk_size

/-- The slice `l[i*size : (i+1)*size]`. -/
def chunkAt (l : List Int) (size i : Nat) : List Int :=
  (l.drop (i * size)).take size

/-- The (index, chunk) pairs fed to the retrieval loop, in ascending
index order. -/
def chunkSeq (l : List Int) (size num : Nat) : List (Nat × List Int) :=
  (List.range num).map (fun i => (i, chunkAt l size i))

/-- `pubchem_properties_for_cids` with the transport stubbed by `net`.
`chunk_size = 0` makes the Python `ceil(len(cid_list) / chunk_size)`
raise `ZeroDivisionError`, modelled as `.error`; the empty-list check
precedes it, exactly as in the source. -/
def pubchem_properties_for_cids (net : List Int → Option PyStr)
    (cid_list : List Int) (chunk_size : Int) : Except PyStr PropsRun :=
  if cid_list = [] then .ok ⟨[], [], [], 0⟩
  else if chunk_size = 0 then
    .error ("ZeroDivisionError: division by zero").data
  else
    let num := (numChunksZ cid_list.length chunk_size).toNat
    .ok (propsLoop net (chunkSeq cid_list chunk_size.toNat num) [] [] [] 0)

/-! ### `cinf26pk.core.utils.chunk_list`

`chunk_list(lst, size)` raises `ValueError` for `size <= 0` and
otherwise returns `[lst[i:i+size] for i in range(0, len(lst), size)]`,
i.e. the same successive fixed-size slices as `chunkAt`. -/

def chunk_list (lst : List Int) (size : Int) : Except PyStr (List (List Int)) :=
  if size ≤ 0 then
    .error ("ValueError: chunk size must be a positive integer").data
  else
    .ok ((List.range ((numChunksZ lst.length size).toNat)).map
      (chunkAt lst size.toNat))

/-! ### `cinf26pk.core.io.load_cid_dict`

After `json.load` and the `isinstance(data, dict)` check, the function
iterates over the parsed object's items, converting key and value with
`int(...)` inside a `try` that catches only `ValueError`.  JSON object
keys are always strings; values are modelled by the JSON scalar types
the conversion distinguishes: strings (`int` parses or raises
`ValueError`), integer numbers (`int` is the identity), and `null`
(`int(None)` raises `TypeError`, which the `except ValueError` clause
does not catch, so it propagates). -/

inductive Json where
  | str (s : PyStr)
  | int (n : Int)
  | null
  deriving DecidableEq

inductive PyErr where
  | valueError
  | typeError
  deriving DecidableEq

/-- Digit-string value (used only when every character is a digit). -/
def digitsToNat (ds : List Char) : Nat :=
  ds.foldl (fun a c => a * 10 + (c.toNat - 48)) 0

/-- Parse a non-empty all-digit string. -/
def parseDigits (ds : List Char) : Option Nat :=
  if ds.isEmpty then none
  else if ds.all Char.isDigit then some (digitsToNat ds) else none

/-- `s.strip()` (both-ends whitespace strip, as `int` applies before
parsing). -/
def pyStrip (s : PyStr) : PyStr :=
  ((s.dropWhile isPySpace).reverse.dropWhile isPySpace).reverse

/-- `int(s)` on a string: optional sign followed by digits, after
stripping surrounding whitespace; `none` models `ValueError`. -/
def pyIntOfStr (s : PyStr) : Option Int :=
  match pyStrip s with
  | '-' :: ds => (parseDigits ds).map (fun n => -(n : Int))
  | '+' :: ds => (parseDigits ds).map (fun n => (n : Int))
  | ds => (parseDigits ds).map (fun n => (n : Int))

/-- `int(v)` on a JSON value: strings parse or raise `ValueError`,
integers pass through, `null` raises `TypeError`. -/
def pyInt : Json → Except PyErr Int
  | .str s =>
    match pyIntOfStr s with
    | some n => .ok n
    | none => .error .valueError
  | .int n => .ok n
  | .null => .error .typeError

/-- `cleaned[k] = v` on an insertion-ordered dictionary: updating an
existing key keeps its position, a new key is appended. -/
def dictUpsert (d : List (Int × Int)) (k v : Int) : List (Int × Int) :=
  if d.any (fun p => p.1 = k) then
    d.map (fun p => if p.1 = k then (k, v) else p)
  else d ++ [(k, v)]

/-- The `for cid, count in data.items()` loop of `load_cid_dict`: a
`ValueError` from either conversion skips the entry (with a printed
warning); a `TypeError` from `int(count)` propagates. -/
def loadLoop : List (PyStr × Json) → List (Int × Int) →
    Except PyErr (List (Int × Int))
  | [], acc => .ok acc
  | (k, v) :: rest, acc =>
    match pyIntOfStr k with
    | none => loadLoop rest acc
    | some ki =>
      match pyInt v with
      | .error .valueError => loadLoop rest acc
      | .error .typeError => .error .typeError
      | .ok vi => loadLoop rest (dictUpsert acc ki vi)

/-- `load_cid_dict` after a successful `json.load` of a top-level
object, given the object's items in order. -/
def load_cid_dict (data : List (PyStr × Json)) :
    Except PyErr (List (Int × Int)) :=
  loadLoop data []

/-- One step of the cleaned-dictionary fold: keep an item exactly when
both its key and its value convert to integers. -/
def cleanStep (acc : List (Int × Int)) (p : PyStr × Json) : List (Int × Int) :=
  match pyIntOfStr p.1, pyInt p.2 with
  | some k, .ok v => dictUpsert acc k v
  | _, _ => acc

/-- The cleaned dictionary described by the spec: fold over the items,
keeping exactly those whose key and value convert to integers. -/
def goodEntries (data : List (PyStr × Json)) : List (Int × Int) :=
  data.foldl cleanStep []

/-! ### `cinf26pk.pubchem.search.pubchem_fastidentity`

Only the request-selection portion is modelled: after the blank-SMILES
guard, `method.lower() == "get"` selects a GET whose URL carries the
URL-encoded SMILES and the identity type as query parameters; any other
method string selects a POST whose URL carries only the identity type
and whose JSON payload is `{"smiles": smiles}`.  `urllib.parse.quote`
is standard-library percent-encoding, taken as a parameter. -/

inductive HttpCall where
  | get (url : PyStr)
  | post (url : PyStr) (payload : List (PyStr × PyStr))
  deriving DecidableEq

def PUG_BASE : PyStr :=
  ("https://pubchem.ncbi.nlm.nih.gov/rest/pug").data

def fastidentityGetUrl (quote : PyStr → PyStr)
    (smiles identity_type : PyStr) : PyStr :=
  PUG_BASE ++ ("/compound/fastidentity/smiles/cids/txt?smiles=").data ++
    quote smiles ++ ("&identity_type=").data ++ identity_type

def fastidentityPostUrl (identity_type : PyStr) : PyStr :=
  PUG_BASE ++ ("/compound/fastidentity/smiles/cids/txt?identity_type=").data ++
    identity_type

/-- The request issued by `pubchem_fastidentity(smiles, identity_type,
method)`; `none` when the blank-SMILES guard returns `[]` without any
transport call. -/
def pubchem_fastidentity_request (quote : PyStr → PyStr)
    (smiles identity_type method : PyStr) : Option HttpCall :=
  if pyBlank smiles then none
  else if pyLower method = ("get").data then
    some (.get (fastidentityGetUrl quote smiles identity_type))
  else
    some (.post (fastidentityPostUrl identity_type)
      [(("smiles").data, smiles)])

/-! ### Stub transports and derived run descriptions -/

/-- The chunks whose transport call succeeded, among the given
(index, chunk) pairs, in processing order. -/
def successChunks (net : List Int → Option PyStr)
    (ps : List (Nat × List Int)) : List (List Int) :=
  (ps.filter (fun p => (net p.2).isSome)).map (fun p => p.2)

/-- The identifiers of the successfully retrieved chunks of a run, in
chunk order. -/
def mergedIds (net : List Int → Option PyStr) (l : List Int)
    (size num : Nat) : List Int :=
  (successChunks net (chunkSeq l size num)).flatten

/-- A tabular stub transport: every successful chunk response is one
header line followed by one data line per identifier of the chunk,
all lines non-empty and free of line feeds. -/
def StubOk (net : List Int → Option PyStr) (header : PyStr)
    (row : Int → PyStr) : Prop :=
  header ≠ [] ∧ '\n' ∉ header ∧ (∀ v, row v ≠ [] ∧ '\n' ∉ row v) ∧
    ∀ c, net c = none ∨ net c = some (joinNl (header :: c.map row))

/-- A concrete all-success tabular stub: header `"H"`, every data line
`"r"`. -/
def stubAllOk : List Int → Option PyStr :=
  fun c => some (joinNl (['H'] :: c.map (fun _ => ['r'])))

/-- `stubAllOk`, except that the chunk `[3]` fails. -/
def stubFail3 : List Int → Option PyStr :=
  fun c => if c = [3] then none else stubAllOk c

/-- `stubAllOk`, except that the chunk `[1]` fails. -/
def stubFail1 : List Int → Option PyStr :=
  fun c => if c = [1] then none else stubAllOk c

/-- `stubAllOk`, except that the chunk `[6]` fails. -/
def stubFail6 : List Int → Option PyStr :=
  fun c => if c = [6] then none else stubAllOk c

/-! ### Lemmas about the string model -/

theorem splitNl_no_nl {x : PyStr} (h : '\n' ∉ x) : splitNl x = [x] := by
  induction x with
  | nil => rfl
  | cons c cs ih =>
    have hc : ¬ c = '\n' := fun hc => h (hc ▸ List.mem_cons_self c cs)
    have hcs : '\n' ∉ cs := fun hm => h (List.mem_cons_of_mem c hm)
    simp [splitNl, hc, ih hcs]

theorem splitNl_append {x : PyStr} (s : PyStr) (h : '\n' ∉ x) :
    splitNl (x ++ '\n' :: s) = x :: splitNl s := by
  induction x with
  | nil => simp [splitNl]
  | cons c cs ih =>
    have hc : ¬ c = '\n' := fun hc => h (hc ▸ List.mem_cons_self c cs)
    have hcs : '\n' ∉ cs := fun hm => h (List.mem_cons_of_mem c hm)
    simp [splitNl, hc, ih hcs]

theorem joinNl_cons {x : PyStr} {ys : List PyStr} (h : ys ≠ []) :
    joinNl (x :: ys) = x ++ '\n' :: joinNl ys := by
  cases ys with
  | nil => exact absurd rfl h
  | cons y t => rfl

theorem splitNl_joinNl : ∀ {l : List PyStr}, l ≠ [] →
    (∀ x ∈ l, '\n' ∉ x) → splitNl (joinNl l) = l
  | [], hl, _ => absurd rfl hl
  | [x], _, h => by
    have hx : '\n' ∉ x := h x (List.mem_cons_self x [])
    simpa [joinNl] using splitNl_no_nl hx
  | x :: y :: t, _, h => by
    have hx : '\n' ∉ x := h x (List.mem_cons_self _ _)
    have hrest : ∀ z ∈ y :: t, '\n' ∉ z :=
      fun z hz => h z (List.mem_cons_of_mem x hz)
    have ih := splitNl_joinNl (l := y :: t) (by simp) hrest
    rw [joinNl, splitNl_append _ hx, ih]

theorem joinNl_ne_nil : ∀ {l : List PyStr}, l ≠ [] →
    (∀ x ∈ l, x ≠ []) → joinNl l ≠ []
  | [], hl, _ => absurd rfl hl
  | [x], _, h => by simpa [joinNl] using h x (List.mem_cons_self x [])
  | x :: y :: t, _, _ => by simp [joinNl]

theorem getLast?_mem : ∀ {l : List PyStr} {a : PyStr},
    l.getLast? = some a → a ∈ l
  | [], a, h => by simp at h
  | [x], a, h => by
    simp [List.getLast?] at h
    simp [h]
  | x :: y :: t, a, h => by
    rw [List.getLast?_cons_cons] at h
    exact List.mem_cons_of_mem x (getLast?_mem h)

theorem pySplitlines_joinNl {l : List PyStr} (hl : l ≠ [])
    (h : ∀ x ∈ l, x ≠ [] ∧ '\n' ∉ x) : pySplitlines (joinNl l) = l := by
  have h1 : joinNl l ≠ [] := joinNl_ne_nil hl (fun x hx => (h x hx).1)
  have h2 : splitNl (joinNl l) = l :=
    splitNl_joinNl hl (fun x hx => (h x hx).2)
  have h3 : ¬ l.getLast? = some [] := fun hc =>
    (h [] (getLast?_mem hc)).1 rfl
  rw [pySplitlines, if_neg h1, h2, if_neg h3]

theorem joinNl_append : ∀ {xs : List PyStr}, xs ≠ [] →
    ∀ {ys : List PyStr}, ys ≠ [] →
    joinNl (xs ++ ys) = joinNl xs ++ '\n' :: joinNl ys
  | [], hx, _, _ => absurd rfl hx
  | [x], _, ys, hy => by
    rw [List.singleton_append, joinNl_cons hy]
    rfl
  | x :: x2 :: t, _, ys, hy => by
    have ih := @joinNl_append (x2 :: t) (by simp) ys hy
    rw [List.cons_append, @joinNl_cons x (x2 :: t ++ ys) (by simp),
      ih, @joinNl_cons x (x2 :: t) (by simp)]
    simp

/-! ### Lemmas about the transport retry loop -/

theorem runAttempts_result (att : Nat → Option α) (bd : Int) :
    ∀ ks : List Nat, (runAttempts att bd ks).result = ks.findSome? att
  | [] => rfl
  | k :: rest => by
    rw [runAttempts, List.findSome?_cons]
    cases h : att k with
    | none => simpa [h] using runAttempts_result att bd rest
    | some v => simp [h]

theorem runAttempts_sleeps (att : Nat → Option α) (bd : Int) :
    ∀ ks : List Nat, (runAttempts att bd ks).sleeps =
      (ks.takeWhile (fun k => (att k).isNone)).map (fun k => bd * (k : Int))
  | [] => rfl
  | k :: rest => by
    rw [runAttempts, List.takeWhile_cons]
    cases h : att k with
    | none => simpa [h] using runAttempts_sleeps att bd rest
    | some v => simp [h]

theorem runAttempts_calls (att : Nat → Option α) (bd : Int) :
    ∀ ks : List Nat, (runAttempts att bd ks).calls ≤ ks.length
  | [] => Nat.le_refl 0
  | k :: rest => by
    rw [runAttempts]
    cases h : att k with
    | none =>
      simpa [h, List.length_cons] using
        Nat.succ_le_succ (runAttempts_calls att bd rest)
    | some v => simp [h, List.length_cons]

theorem mem_attemptNumbers {k retries : Nat} :
    k ∈ attemptNumbers retries ↔ 1 ≤ k ∧ k ≤ retries := by
  simp only [attemptNumbers, List.mem_map, List.mem_range]
  constructor
  · rintro ⟨j, hj, rfl⟩
    omega
  · rintro ⟨h1, h2⟩
    exact ⟨k - 1, by omega, by omega⟩

/-! ### Lemmas about the batch-retrieval loop -/

theorem propsLoop_requests (net : List Int → Option PyStr) :
    ∀ (ps : List (Nat × List Int)) csv failed reqs s,
      (propsLoop net ps csv failed reqs s).requests =
        reqs ++ ps.map (fun p => p.2)
  | [], _, _, _, _ => by simp [propsLoop]
  | (i, c) :: rest, csv, failed, reqs, s => by
    rw [propsLoop]
    cases h : net c with
    | none => rw [propsLoop_requests net rest]; simp
    | some t => rw [propsLoop_requests net rest]; simp

theorem propsLoop_failed (net : List Int → Option PyStr) :
    ∀ (ps : List (Nat × List Int)) csv failed reqs s,
      (propsLoop net ps csv failed reqs s).failed_chunks =
        failed ++ (ps.filter (fun p => (net p.2).isNone)).map (fun p => p.1)
  | [], _, _, _, _ => by simp [propsLoop]
  | (i, c) :: rest, csv, failed, reqs, s => by
    rw [propsLoop]
    cases h : net c with
    | none => rw [propsLoop_failed net rest]; simp [List.filter_cons, h]
    | some t => rw [propsLoop_failed net rest]; simp [List.filter_cons, h]

theorem propsLoop_sleeps (net : List Int → Option PyStr) :
    ∀ (ps : List (Nat × List Int)) csv failed reqs s,
      (propsLoop net ps csv failed reqs s).throttle_sleeps =
        s + (ps.filter (fun p => (net p.2).isSome)).length
  | [], _, _, _, _ => by simp [propsLoop]
  | (i, c) :: rest, csv, failed, reqs, s => by
    rw [propsLoop]
    cases h : net c with
    | none => rw [propsLoop_sleeps net rest]; simp [List.filter_cons, h]
    | some t =>
      rw [propsLoop_sleeps net rest]
      simp [List.filter_cons, h]
      omega

theorem length_filter_isSome_isNone (net : List Int → Option PyStr) :
    ∀ ps : List (Nat × List Int),
      (ps.filter (fun p => (net p.2).isSome)).length +
        (ps.filter (fun p => (net p.2).isNone)).length = ps.length
  | [] => rfl
  | (i, c) :: rest => by
    have ih := length_filter_isSome_isNone net rest
    cases h : net c with
    | none => simp [List.filter_cons, h]; omega
    | some t => simp [List.filter_cons, h]; omega

/-! ### Lemmas about chunking and the ceiling division -/

theorem chunkAt_zero (l : List Int) (k : Nat) : chunkAt l k 0 = l.take k := by
  simp [chunkAt]

theorem chunkAt_succ (l : List Int) (k i : Nat) :
    chunkAt l k (i + 1) = chunkAt (l.drop k) k i := by
  unfold chunkAt
  rw [List.drop_drop]
  have : i * k + k = (i + 1) * k := by ring
  rw [Nat.add_comm k (i * k), this]

theorem flatten_range_chunkAt (k : Nat) :
    ∀ (n : Nat) (l : List Int),
      ((List.range n).map (chunkAt l k)).flatten = l.take (n * k)
  | 0, l => by simp
  | n + 1, l => by
    rw [List.range_succ_eq_map, List.map_cons, List.map_map]
    have hmap : (List.range n).map (chunkAt l k ∘ Nat.succ) =
        (List.range n).map (chunkAt (l.drop k) k) :=
      List.map_congr_left (fun i _ => chunkAt_succ l k i)
    rw [hmap, List.flatten_cons, flatten_range_chunkAt k n (l.drop k),
      chunkAt_zero, ← List.take_add]
    have : k + n * k = (n + 1) * k := by ring
    rw [this]

theorem numChunksZ_eq_ceil {n : Nat} {cs : Int} (h : 1 ≤ cs) :
    numChunksZ n cs = ⌈(n : ℚ) / (cs : ℚ)⌉ := by
  have hk : ((cs.toNat : Int)) = cs := Int.toNat_of_nonneg (by omega)
  have hceil : ⌈(n : ℚ) / (cs : ℚ)⌉ = -⌊-((n : ℚ) / (cs : ℚ))⌋ := by
    rw [Int.floor_neg]
    ring
  rw [hceil]
  have hkq : ((cs.toNat : Nat) : ℚ) = (cs : ℚ) := by exact_mod_cast hk
  have hneg : -((n : ℚ) / (cs : ℚ)) = ((-(n : Int) : Int) : ℚ) / ((cs.toNat : Nat) : ℚ) := by
    rw [hkq]
    push_cast
    ring
  rw [hneg, Rat.floor_intCast_div_natCast, hk]
  simp [numChunksZ, pyCeilDiv, if_pos (by omega : (0 : Int) ≤ cs)]

theorem numChunksZ_nonneg {n : Nat} {cs : Int} (h : 1 ≤ cs) :
    0 ≤ numChunksZ n cs := by
  rw [numChunksZ_eq_ceil h]
  exact Int.ceil_nonneg (div_nonneg (by positivity)
    (by exact_mod_cast (by omega : (0 : Int) ≤ cs)))

theorem le_numChunks_mul {n : Nat} {cs : Int} (h : 1 ≤ cs) :
    n ≤ (numChunksZ n cs).toNat * cs.toNat := by
  have hk0 : (0 : ℚ) < (cs : ℚ) := by exact_mod_cast (by omega : (0 : Int) < cs)
  have hle : (n : ℚ) / (cs : ℚ) ≤ ((numChunksZ n cs : Int) : ℚ) := by
    rw [numChunksZ_eq_ceil h]
    exact Int.le_ceil _
  have hN : ((numChunksZ n cs).toNat : Int) = numChunksZ n cs :=
    Int.toNat_of_nonneg (numChunksZ_nonneg h)
  have hcs : ((cs.toNat : Int)) = cs := Int.toNat_of_nonneg (by omega)
  have h2 : (n : ℚ) ≤ ((numChunksZ n cs : Int) : ℚ) * (cs : ℚ) :=
    (div_le_iff₀ hk0).mp hle
  have h3 : (n : Int) ≤ numChunksZ n cs * cs := by exact_mod_cast h2
  have h4 : (n : Int) ≤ ((numChunksZ n cs).toNat : Int) * ((cs.toNat : Int)) := by
    rw [hN, hcs]
    exact h3
  exact_mod_cast h4

theorem lt_of_lt_numChunks {n : Nat} {cs : Int} {i : Nat} (h : 1 ≤ cs)
    (hi : i < (numChunksZ n cs).toNat) : i * cs.toNat < n := by
  have hk0 : (0 : ℚ) < (cs : ℚ) := by exact_mod_cast (by omega : (0 : Int) < cs)
  have hN : ((numChunksZ n cs).toNat : Int) = numChunksZ n cs :=
    Int.toNat_of_nonneg (numChunksZ_nonneg h)
  have hlt : ((i : Int)) < numChunksZ n cs := by
    rw [← hN]
    exact_mod_cast hi
  have hnotle : ¬ (numChunksZ n cs ≤ (i : Int)) := by omega
  have hnotle2 : ¬ ((n : ℚ) / (cs : ℚ) ≤ ((i : Int) : ℚ)) := by
    intro hc
    exact hnotle (by rw [numChunksZ_eq_ceil h]; exact Int.ceil_le.mpr hc)
  have hlt2 : ((i : ℚ)) < (n : ℚ) / (cs : ℚ) := by
    push_cast at hnotle2 ⊢
    exact lt_of_not_le hnotle2
  have h3 : (i : ℚ) * (cs : ℚ) < (n : ℚ) := (lt_div_iff₀ hk0).mp hlt2
  have hcs : ((cs.toNat : Int)) = cs := Int.toNat_of_nonneg (by omega)
  have h4 : (i : Int) * cs < (n : Int) := by exact_mod_cast h3
  have h5 : (i : Int) * ((cs.toNat : Int)) < (n : Int) := by rw [hcs]; exact h4
  exact_mod_cast h5

theorem numChunksZ_nonpos_of_neg {n : Nat} {cs : Int} (h : cs < 0) :
    numChunksZ n cs ≤ 0 := by
  rw [numChunksZ, pyCeilDiv, if_neg (by omega : ¬ (0 : Int) ≤ cs)]
  have : (0 : Int) ≤ (n : Int) / -cs :=
    Int.ediv_nonneg (by positivity) (by omega)
  omega

theorem chunkAt_ne_nil {l : List Int} {k i : Nat} (hk : 1 ≤ k)
    (hi : i * k < l.length) : chunkAt l k i ≠ [] := by
  apply List.ne_nil_of_length_pos
  rw [chunkAt, List.length_take, List.length_drop]
  omega

theorem chunkSeq_map_snd (l : List Int) (k n : Nat) :
    (chunkSeq l k n).map (fun p => p.2) = (List.range n).map (chunkAt l k) := by
  simp [chunkSeq, List.map_map]

theorem chunkSeq_map_fst (l : List Int) (k n : Nat) :
    (chunkSeq l k n).map (fun p => p.1) = List.range n := by
  simp [chunkSeq, List.map_map]
  exact List.map_id _

theorem mem_chunkSeq {l : List Int} {k n : Nat} {p : Nat × List Int}
    (h : p ∈ chunkSeq l k n) : p.1 < n ∧ p.2 = chunkAt l k p.1 := by
  simp only [chunkSeq, List.mem_map, List.mem_range] at h
  obtain ⟨i, hi, rfl⟩ := h
  exact ⟨hi, rfl⟩

theorem chunkSeq_eq_cons {l : List Int} {k : Nat} {n m : Nat}
    (h : n = m + 1) : chunkSeq l k n =
      (0, chunkAt l k 0) ::
        (List.range m).map (fun i => (i + 1, chunkAt l k (i + 1))) := by
  subst h
  rw [chunkSeq, List.range_succ_eq_map, List.map_cons, List.map_map]
  rfl

/-- The accumulated text after the loop over `ps`, when it already has
the shape "header plus accumulated rows" (which holds from the moment
chunk 0 succeeds): every further successful chunk appends exactly its
data rows, failed chunks change nothing. -/
theorem propsLoop_csv (net : List Int → Option PyStr) {header : PyStr}
    {row : Int → PyStr} (hh : header ≠ []) (hhn : '\n' ∉ header)
    (hrow : ∀ v, row v ≠ [] ∧ '\n' ∉ row v) :
    ∀ (ps : List (Nat × List Int)) (rows : List PyStr) failed reqs s,
      (∀ x ∈ rows, x ≠ [] ∧ '\n' ∉ x) →
      (∀ p ∈ ps, p.1 ≠ 0 ∧ p.2 ≠ []) →
      (∀ p ∈ ps, net p.2 = none ∨
        net p.2 = some (joinNl (header :: p.2.map row))) →
      (propsLoop net ps (joinNl (header :: rows)) failed reqs s).csv_output =
        joinNl (header :: rows ++
          ((successChunks net ps).map (fun c => c.map row)).flatten)
  | [], rows, failed, reqs, s, _, _, _ => by
    simp [propsLoop, successChunks]
  | (i, c) :: rest, rows, failed, reqs, s, hrows, hps, hstub => by
    have hrest1 : ∀ p ∈ rest, p.1 ≠ 0 ∧ p.2 ≠ [] :=
      fun p hp => hps p (List.mem_cons_of_mem _ hp)
    have hrest2 : ∀ p ∈ rest, net p.2 = none ∨
        net p.2 = some (joinNl (header :: p.2.map row)) :=
      fun p hp => hstub p (List.mem_cons_of_mem _ hp)
    have hic := hps (i, c) (List.mem_cons_self _ _)
    rw [propsLoop]
    cases h : net c with
    | none =>
      rw [propsLoop_csv net hh hhn hrow rest rows _ _ _ hrows hrest1 hrest2]
      simp [successChunks, List.filter_cons, h]
    | some t =>
      have hshape : t = joinNl (header :: c.map row) := by
        rcases hstub (i, c) (List.mem_cons_self _ _) with hn | hs
        · rw [h] at hn
          cases hn
        · rw [h] at hs
          exact (Option.some.injEq _ _).mp hs.symm |>.symm
      have hcne : c ≠ [] := hic.2
      have hmapne : c.map row ≠ [] := by
        simp [List.map_eq_nil_iff]
        exact hcne
      have hgood : ∀ x ∈ header :: c.map row, x ≠ [] ∧ '\n' ∉ x := by
        intro x hx
        rcases List.mem_cons.mp hx with rfl | hx2
        · exact ⟨hh, hhn⟩
        · obtain ⟨v, _, rfl⟩ := List.mem_map.mp hx2
          exact hrow v
      have hlines : pySplitlines t = header :: c.map row := by
        rw [hshape]
        exact pySplitlines_joinNl (by simp) hgood
      have hi0 : ¬ i = 0 := hic.1
      simp only [hlines, hi0, if_false, List.drop_succ_cons, List.drop_zero]
      have happ : joinNl (header :: rows) ++ '\n' :: joinNl (c.map row) =
          joinNl (header :: (rows ++ c.map row)) := by
        rw [← joinNl_append (by simp) hmapne]
        simp
      rw [happ]
      have hrows2 : ∀ x ∈ rows ++ c.map row, x ≠ [] ∧ '\n' ∉ x := by
        intro x hx
        rcases List.mem_append.mp hx with hx1 | hx2
        · exact hrows x hx1
        · obtain ⟨v, _, rfl⟩ := List.mem_map.mp hx2
          exact hrow v
      rw [propsLoop_csv net hh hhn hrow rest (rows ++ c.map row) _ _ _
        hrows2 hrest1 hrest2]
      simp [successChunks, List.filter_cons, h]

/-- In an all-success run the merged identifiers are the whole input
list, in order. -/
theorem mergedIds_all_success {net : List Int → Option PyStr}
    {l : List Int} {k n : Nat}
    (h : ∀ p ∈ chunkSeq l k n, (net p.2).isSome)
    (hcover : l.length ≤ n * k) : mergedIds net l k n = l := by
  rw [mergedIds, successChunks, List.filter_eq_self.mpr h,
    chunkSeq_map_snd, flatten_range_chunkAt]
  exact List.take_of_length_le hcover

/-- Main characterisation of the merged text: whenever chunk 0's
transport call succeeds under a tabular stub, the merged output splits
into the header line followed by one data line per successfully
retrieved identifier, in chunk order. -/
theorem props_csv_characterization {net : List Int → Option PyStr}
    {header : PyStr} {row : Int → PyStr} (hstub : StubOk net header row)
    {l : List Int} {cs : Int} (hl : l ≠ []) (hcs : 1 ≤ cs)
    (h0 : (net (chunkAt l cs.toNat 0)).isSome) :
    ∃ r, pubchem_properties_for_cids net l cs = .ok r ∧
      pySplitlines r.csv_output = header ::
        (mergedIds net l cs.toNat (numChunksZ l.length cs).toNat).map row := by
  obtain ⟨hh, hhn, hrow, hnet⟩ := hstub
  have hcs0 : ¬ cs = 0 := by omega
  have hlpos : 0 < l.length := List.length_pos.mpr hl
  have hk1 : 1 ≤ cs.toNat := by omega
  have hNpos : 1 ≤ (numChunksZ l.length cs).toNat := by
    by_contra hc
    have h00 : (numChunksZ l.length cs).toNat = 0 := by omega
    have hle := le_numChunks_mul (n := l.length) hcs
    rw [h00, Nat.zero_mul] at hle
    omega
  obtain ⟨M, hM⟩ : ∃ M, (numChunksZ l.length cs).toNat = M + 1 :=
    ⟨(numChunksZ l.length cs).toNat - 1, by omega⟩
  have hrun : pubchem_properties_for_cids net l cs =
      .ok (propsLoop net
        (chunkSeq l cs.toNat (numChunksZ l.length cs).toNat) [] [] [] 0) := by
    rw [pubchem_properties_for_cids, if_neg hl, if_neg hcs0]
  refine ⟨_, hrun, ?_⟩
  obtain ⟨t0, ht0⟩ := Option.isSome_iff_exists.mp h0
  have hshape0 : t0 = joinNl (header :: (chunkAt l cs.toNat 0).map row) := by
    rcases hnet (chunkAt l cs.toNat 0) with hn | hs
    · rw [ht0] at hn
      cases hn
    · rw [ht0] at hs
      exact (Option.some.injEq _ _).mp hs.symm |>.symm
  have hgood0 : ∀ x ∈ header :: (chunkAt l cs.toNat 0).map row,
      x ≠ [] ∧ '\n' ∉ x := by
    intro x hx
    rcases List.mem_cons.mp hx with rfl | hx2
    · exact ⟨hh, hhn⟩
    · obtain ⟨v, _, rfl⟩ := List.mem_map.mp hx2
      exact hrow v
  have hlines0 : pySplitlines t0 = header :: (chunkAt l cs.toNat 0).map row := by
    rw [hshape0]
    exact pySplitlines_joinNl (by simp) hgood0
  rw [chunkSeq_eq_cons hM, propsLoop]
  simp only [ht0, hlines0, eq_self_iff_true, if_true]
  have hps : ∀ p ∈ (List.range M).map
      (fun i => (i + 1, chunkAt l cs.toNat (i + 1))), p.1 ≠ 0 ∧ p.2 ≠ [] := by
    intro p hp
    obtain ⟨i, hi, rfl⟩ := List.mem_map.mp hp
    rw [List.mem_range] at hi
    refine ⟨by simp, chunkAt_ne_nil hk1 (lt_of_lt_numChunks hcs ?_)⟩
    omega
  have hstubrest : ∀ p ∈ (List.range M).map
      (fun i => (i + 1, chunkAt l cs.toNat (i + 1))),
      net p.2 = none ∨ net p.2 = some (joinNl (header :: p.2.map row)) :=
    fun p _ => hnet p.2
  have hrows0 : ∀ x ∈ (chunkAt l cs.toNat 0).map row, x ≠ [] ∧ '\n' ∉ x := by
    intro x hx
    obtain ⟨v, _, rfl⟩ := List.mem_map.mp hx
    exact hrow v
  rw [propsLoop_csv net hh hhn hrow _ _ _ _ _ hrows0 hps hstubrest]
  have hmerged : (chunkAt l cs.toNat 0).map row ++
      ((successChunks net ((List.range M).map
        (fun i => (i + 1, chunkAt l cs.toNat (i + 1))))).map
          (fun c => c.map row)).flatten =
      (mergedIds net l cs.toNat (numChunksZ l.length cs).toNat).map row := by
    rw [mergedIds, chunkSeq_eq_cons hM]
    simp [successChunks, List.filter_cons, ht0, List.map_flatten,
      List.map_map, Function.comp]
  rw [← hmerged]
  apply pySplitlines_joinNl (by simp)
  intro x hx
  rcases List.mem_cons.mp hx with rfl | hx2
  · exact ⟨hh, hhn⟩
  · rcases List.mem_append.mp hx2 with hx3 | hx3
    · obtain ⟨v, _, rfl⟩ := List.mem_map.mp hx3
      exact hrow v
    · obtain ⟨ys, hys, hxy⟩ := List.mem_flatten.mp hx3
      obtain ⟨c, _, rfl⟩ := List.mem_map.mp hys
      obtain ⟨v, _, rfl⟩ := List.mem_map.mp hxy
      exact hrow v

/-! ### Lemmas about `load_cid_dict` -/

theorem loadLoop_no_null : ∀ (data : List (PyStr × Json))
    (acc : List (Int × Int)), (∀ p ∈ data, p.2 ≠ Json.null) →
    loadLoop data acc = .ok (data.foldl cleanStep acc)
  | [], acc, _ => rfl
  | (k, v) :: rest, acc, h => by
    have hrest : ∀ p ∈ rest, p.2 ≠ Json.null :=
      fun p hp => h p (List.mem_cons_of_mem _ hp)
    have hv : v ≠ Json.null := h (k, v) (List.mem_cons_self _ _)
    rw [loadLoop, List.foldl_cons]
    cases hk : pyIntOfStr k with
    | none =>
      rw [loadLoop_no_null rest acc hrest]
      simp [cleanStep, hk]
    | some ki =>
      cases v with
      | null => exact absurd rfl hv
      | int n =>
        simp [cleanStep, hk, pyInt]
        exact loadLoop_no_null rest _ hrest
      | str s =>
        cases hs : pyIntOfStr s with
        | none =>
          simp [cleanStep, hk, pyInt, hs]
          exact loadLoop_no_null rest acc hrest
        | some vi =>
          simp [cleanStep, hk, pyInt, hs]
          exact loadLoop_no_null rest _ hrest

/-! ### Lemmas about the issued requests -/

theorem props_requests {net : List Int → Option PyStr} {l : List Int}
    {cs : Int} (hl : l ≠ []) (hcs : ¬ cs = 0) :
    ∃ r, pubchem_properties_for_cids net l cs = .ok r ∧
      r.requests = (List.range ((numChunksZ l.length cs).toNat)).map
        (chunkAt l cs.toNat) := by
  refine ⟨_, by rw [pubchem_properties_for_cids, if_neg hl, if_neg hcs], ?_⟩
  rw [propsLoop_requests, List.nil_append, chunkSeq_map_snd]

theorem getD_range_map {f : Nat → List Int} {n i : Nat} (hi : i < n) :
    ((List.range n).map f).getD i [] = f i := by
  rw [List.getD_eq_getElem?_getD, List.getElem?_map, List.getElem?_range hi]
  rfl

/-! ### Claim theorems -/

/-- C1 counterexample: with identifiers `[3, 4]`, `chunk_size = 1` and a
tabular stub (header `"H"`, data rows `"r"`) whose chunk 0 fails while
chunk 1 succeeds, the merged output is `"\nr"`: it contains no header
line at all (the claim demands exactly one header line overall in every
run, with failed chunks contributing no lines), and its first line is a
spurious empty line. -/
theorem c1_counterexample :
    pubchem_properties_for_cids stubFail3 [3, 4] 1 =
      .ok ⟨['\n', 'r'], [0], [[3], [4]], 1⟩ ∧
    (pySplitlines ['\n', 'r']).count ['H'] ≠ 1 := by
  exact ⟨by decide, by decide⟩

/-- C1 (amended): under a tabular stub transport, in every run whose
chunk 0 succeeds, the merged output is exactly one header line
followed by one data line per successfully retrieved identifier, in
chunk order, with failed chunks contributing no lines; in an
all-success run the data lines are the input identifiers' rows in
original order. -/
theorem c1_merged_output (net : List Int → Option PyStr) (header : PyStr)
    (row : Int → PyStr) (l : List Int) (cs : Int)
    (hstub : StubOk net header row) (hl : l ≠ []) (hcs : 1 ≤ cs)
    (h0 : (net (chunkAt l cs.toNat 0)).isSome) :
    ∃ r, pubchem_properties_for_cids net l cs = .ok r ∧
      pySplitlines r.csv_output = header ::
        (mergedIds net l cs.toNat (numChunksZ l.length cs).toNat).map row ∧
      ((∀ p ∈ chunkSeq l cs.toNat (numChunksZ l.length cs).toNat,
          (net p.2).isSome) →
        pySplitlines r.csv_output = header :: l.map row) := by
  obtain ⟨r, hr, hcsv⟩ := props_csv_characterization hstub hl hcs h0
  refine ⟨r, hr, hcsv, fun hall => ?_⟩
  rw [hcsv, mergedIds_all_success hall (le_numChunks_mul hcs)]

/-- C1 witness: the amended claim applied to the all-success stub on
`[1, 2, 3, 4, 5]` with `chunk_size = 2`. -/
theorem c1_witness :
    StubOk stubAllOk ['H'] (fun _ => ['r']) ∧
    ([1, 2, 3, 4, 5] : List Int) ≠ [] ∧ (1 : Int) ≤ 2 ∧
    (∃ r, pubchem_properties_for_cids stubAllOk [1, 2, 3, 4, 5] 2 = .ok r ∧
      pySplitlines r.csv_output = ['H'] ::
        (mergedIds stubAllOk [1, 2, 3, 4, 5] (2 : Int).toNat
          (numChunksZ (List.length ([1, 2, 3, 4, 5] : List Int)) 2).toNat).map
          (fun _ => ['r']) ∧
      ((∀ p ∈ chunkSeq [1, 2, 3, 4, 5] (2 : Int).toNat
          (numChunksZ (List.length ([1, 2, 3, 4, 5] : List Int)) 2).toNat,
          (stubAllOk p.2).isSome) →
        pySplitlines r.csv_output = ['H'] ::
          ([1, 2, 3, 4, 5] : List Int).map (fun _ => ['r']))) :=
  have hstub : StubOk stubAllOk ['H'] (fun _ => ['r']) :=
    ⟨by decide, by decide,
      fun v => show ['r'] ≠ [] ∧ '\n' ∉ ['r'] from ⟨by decide, by decide⟩,
      fun _ => Or.inr rfl⟩
  ⟨hstub, by decide, by decide,
    c1_merged_output stubAllOk ['H'] (fun _ => ['r']) [1, 2, 3, 4, 5] 2
      hstub (by decide) (by decide) (by decide)⟩

/-- C2: for every non-empty identifier list and `chunk_size ≥ 1`, the
run issues exactly `ceil(len / chunk_size)` chunk requests; chunk `i`
is the slice `identifiers[i*chunk_size : (i+1)*chunk_size]`; the chunks
are non-empty, at most `chunk_size` long, and their concatenation in
issue order is exactly the original list (contiguous, non-overlapping,
covering every identifier once, in ascending index order). -/
theorem c2_chunking (net : List Int → Option PyStr) (l : List Int)
    (cs : Int) (hl : l ≠ []) (hcs : 1 ≤ cs) :
    ∃ r, pubchem_properties_for_cids net l cs = .ok r ∧
      r.requests.length = (Int.ceil ((l.length : ℚ) / (cs : ℚ))).toNat ∧
      r.requests = (List.range ((numChunksZ l.length cs).toNat)).map
        (chunkAt l cs.toNat) ∧
      r.requests.flatten = l ∧
      (∀ i < (numChunksZ l.length cs).toNat,
        r.requests.getD i [] = (l.drop (i * cs.toNat)).take cs.toNat) ∧
      (∀ c ∈ r.requests, c ≠ [] ∧ c.length ≤ cs.toNat) := by
  have hcs0 : ¬ cs = 0 := by omega
  obtain ⟨r, hr, hreq⟩ := props_requests hl hcs0
  have hk1 : 1 ≤ cs.toNat := by omega
  refine ⟨r, hr, ?_, hreq, ?_, ?_, ?_⟩
  · rw [hreq, List.length_map, List.length_range, numChunksZ_eq_ceil hcs]
  · rw [hreq, flatten_range_chunkAt]
    exact List.take_of_length_le (le_numChunks_mul hcs)
  · intro i hi
    rw [hreq, getD_range_map hi]
    rfl
  · intro c hc
    rw [hreq] at hc
    obtain ⟨i, hi, rfl⟩ := List.mem_map.mp hc
    rw [List.mem_range] at hi
    refine ⟨chunkAt_ne_nil hk1 (lt_of_lt_numChunks hcs hi), ?_⟩
    exact List.length_take_le _ _

/-- C2 witness: `[1, 2, 3, 4, 5]` with `chunk_size = 2` issues exactly
the three chunks `[1, 2]`, `[3, 4]`, `[5]` in that order. -/
theorem c2_witness :
    ([1, 2, 3, 4, 5] : List Int) ≠ [] ∧ (1 : Int) ≤ 2 ∧
    (∃ r, pubchem_properties_for_cids stubAllOk [1, 2, 3, 4, 5] 2 = .ok r ∧
      r.requests.length =
        (Int.ceil ((List.length ([1, 2, 3, 4, 5] : List Int) : ℚ) /
          ((2 : Int) : ℚ))).toNat ∧
      r.requests = (List.range
          ((numChunksZ (List.length ([1, 2, 3, 4, 5] : List Int)) 2).toNat)).map
        (chunkAt [1, 2, 3, 4, 5] (2 : Int).toNat) ∧
      r.requests.flatten = [1, 2, 3, 4, 5] ∧
      (∀ i < (numChunksZ (List.length ([1, 2, 3, 4, 5] : List Int)) 2).toNat,
        r.requests.getD i [] =
          (([1, 2, 3, 4, 5] : List Int).drop (i * (2 : Int).toNat)).take
            (2 : Int).toNat) ∧
      (∀ c ∈ r.requests, c ≠ [] ∧ c.length ≤ (2 : Int).toNat)) ∧
    pubchem_properties_for_cids stubAllOk [1, 2, 3, 4, 5] 2 =
      .ok ⟨['H', '\n', 'r', '\n', 'r', '\n', 'r', '\n', 'r', '\n', 'r'],
        [], [[1, 2], [3, 4], [5]], 3⟩ :=
  ⟨by decide, by decide,
    c2_chunking stubAllOk [1, 2, 3, 4, 5] 2 (by decide) (by decide),
    by decide⟩

/-- C3 counterexample: with `retries = 1`, `base_delay = 2` and an
always-failing stub, the single attempt is the final one, yet the
function still sleeps `2 * 1 = 2` seconds after it (the claim demands
no sleep after the final failed attempt, i.e. an empty sleep list). -/
theorem c3_counterexample :
    pubchem_get (fun _ => (none : Option PyStr)) 1 2 = ⟨none, [2], 1⟩ := by
  decide

/-- C3 (amended): after every failed attempt `k`, including the final
one, both `pubchem_get` and `pubchem_post` sleep `base_delay * k`
(linear backoff); in particular with `retries = 3`, `base_delay = 2`
and failures on attempts 1 and 2 followed by success on attempt 3, the
run returns the success payload and sleeps `2*1 + 2*2 = 6` seconds in
total. -/
theorem c3_backoff_sleeps :
    (∀ (α : Type) (att : Nat → Option α) (retries : Nat) (bd : Int),
      (pubchem_get att retries bd).sleeps =
        ((attemptNumbers retries).takeWhile (fun k => (att k).isNone)).map
          (fun k => bd * (k : Int)) ∧
      (pubchem_post att retries bd).sleeps =
        (pubchem_get att retries bd).sleeps) ∧
    (pubchem_get (fun k => if k = 3 then some ['o'] else none) 3 2).result =
      some ['o'] ∧
    (pubchem_get (fun k => if k = 3 then some ['o'] else none) 3 2).sleeps =
      [2, 4] ∧
    ([2, 4] : List Int).sum = 6 :=
  ⟨fun _ att retries bd => ⟨runAttempts_sleeps att bd _, rfl⟩,
    by decide, by decide, by decide⟩

/-- C4: the transport helpers are total on every stub network: they
return the payload of the first successful attempt (`findSome?` over
the attempt numbers `1..retries`), perform at most `retries` attempts,
return the sentinel `none` exactly when all `retries` attempts fail,
and `pubchem_post` behaves identically to `pubchem_get`. -/
theorem c4_no_exception_propagation :
    ∀ (α : Type) (att : Nat → Option α) (retries : Nat) (bd : Int),
      (pubchem_get att retries bd).result =
        (attemptNumbers retries).findSome? att ∧
      (pubchem_get att retries bd).calls ≤ retries ∧
      ((pubchem_get att retries bd).result = none ↔
        ∀ k, 1 ≤ k → k ≤ retries → att k = none) ∧
      pubchem_post att retries bd = pubchem_get att retries bd := by
  intro α att retries bd
  refine ⟨runAttempts_result att bd _, ?_, ?_, rfl⟩
  · have h := runAttempts_calls att bd (attemptNumbers retries)
    simpa [attemptNumbers] using h
  · rw [pubchem_get, runAttempts_result, List.findSome?_eq_none_iff]
    constructor
    · intro h k h1 h2
      exact h k (mem_attemptNumbers.mpr ⟨h1, h2⟩)
    · intro h k hk
      obtain ⟨h1, h2⟩ := mem_attemptNumbers.mp hk
      exact h k h1 h2

/-- C5 counterexample: two runs over `[1, 2]` with `chunk_size = 1` and
the same number of chunks: when chunk 0 fails the run performs only 1
throttle sleep, while the all-success run performs 2 — the `continue`
on failure skips `time.sleep(sleep_time)`, so the number of throttle
sleeps is not independent of which chunks fail, and a failed chunk is
not followed by a sleep as the claim states. -/
theorem c5_counterexample :
    pubchem_properties_for_cids stubFail1 [1, 2] 1 =
      .ok ⟨['\n', 'r'], [0], [[1], [2]], 1⟩ ∧
    pubchem_properties_for_cids stubAllOk [1, 2] 1 =
      .ok ⟨['H', '\n', 'r', '\n', 'r'], [], [[1], [2]], 2⟩ ∧
    (1 : Nat) ≠ 2 :=
  ⟨by decide, by decide, by decide⟩

/-- C5 (amended): the function sleeps `sleep_time` exactly once after
each successful chunk (including the last) and never after a failed
chunk, so in every run the number of throttle sleeps plus the number of
failed chunks equals the number of chunk requests issued. -/
theorem c5_throttle_sleeps (net : List Int → Option PyStr) (l : List Int)
    (cs : Int) (r : PropsRun)
    (h : pubchem_properties_for_cids net l cs = .ok r) :
    r.throttle_sleeps + r.failed_chunks.length = r.requests.length := by
  rw [pubchem_properties_for_cids] at h
  split_ifs at h with h1 h2
  · injection h with h
    subst h
    rfl
  · have h3 : propsLoop net
        (chunkSeq l cs.toNat (numChunksZ l.length cs).toNat) [] [] [] 0 = r :=
      (Except.ok.injEq _ _).mp h
    subst h3
    rw [propsLoop_sleeps, propsLoop_failed, propsLoop_requests]
    simp only [List.nil_append, List.length_map]
    have hc := length_filter_isSome_isNone net
      (chunkSeq l cs.toNat (numChunksZ l.length cs).toNat)
    omega

/-- C5 witness: the amended claim applied to the run on `[1, 2]` with
`chunk_size = 1` in which chunk 0 fails: 1 sleep + 1 failed chunk =
2 requests. -/
theorem c5_witness :
    pubchem_properties_for_cids stubFail1 [1, 2] 1 =
      .ok ⟨['\n', 'r'], [0], [[1], [2]], 1⟩ ∧
    (⟨['\n', 'r'], [0], [[1], [2]], 1⟩ : PropsRun).throttle_sleeps +
      (⟨['\n', 'r'], [0], [[1], [2]], 1⟩ : PropsRun).failed_chunks.length =
      (⟨['\n', 'r'], [0], [[1], [2]], 1⟩ : PropsRun).requests.length :=
  ⟨by decide,
    c5_throttle_sleeps stubFail1 [1, 2] 1 ⟨['\n', 'r'], [0], [[1], [2]], 1⟩
      (by decide)⟩

/-- C6: on the empty identifier list the function returns `("", [])`
immediately, issuing no chunk request at all (empty request list,
equivalently zero transport calls); the warning print is an unmodelled
console side effect.  This holds for every transport stub and every
`chunk_size`, including 0, because the emptiness check precedes the
division. -/
theorem c6_empty_list :
    ∀ (net : List Int → Option PyStr) (cs : Int),
      pubchem_properties_for_cids net [] cs = .ok ⟨[], [], [], 0⟩ :=
  fun _ _ => rfl

/-- C7: in every run the failed-chunk list is strictly increasing in
chunk index (hence duplicate-free): each chunk is marked failed at most
once, in processing order, with no batch-level retry. -/
theorem c7_failed_chunks (net : List Int → Option PyStr) (l : List Int)
    (cs : Int) (r : PropsRun)
    (h : pubchem_properties_for_cids net l cs = .ok r) :
    List.Pairwise (· < ·) r.failed_chunks ∧ r.failed_chunks.Nodup := by
  rw [pubchem_properties_for_cids] at h
  split_ifs at h with h1 h2
  · injection h with h
    subst h
    exact ⟨List.Pairwise.nil, List.nodup_nil⟩
  · have h3 : propsLoop net
        (chunkSeq l cs.toNat (numChunksZ l.length cs).toNat) [] [] [] 0 = r :=
      (Except.ok.injEq _ _).mp h
    subst h3
    rw [propsLoop_failed]
    simp only [List.nil_append]
    have hsub : List.Sublist
        (((chunkSeq l cs.toNat (numChunksZ l.length cs).toNat).filter
          (fun p => (net p.2).isNone)).map (fun p => p.1))
        ((chunkSeq l cs.toNat (numChunksZ l.length cs).toNat).map
          (fun p => p.1)) :=
      List.Sublist.map _ (List.filter_sublist _)
    rw [chunkSeq_map_fst] at hsub
    have hpw := List.Pairwise.sublist hsub (List.pairwise_lt_range _)
    exact ⟨hpw, show List.Pairwise (· ≠ ·) _ from
      hpw.imp (fun hab => Nat.ne_of_lt hab)⟩

/-- C7 witness: the run on `[5, 6]` with `chunk_size = 1` in which
chunk 1 fails has the strictly increasing, duplicate-free failed-chunk
list `[1]`. -/
theorem c7_witness :
    pubchem_properties_for_cids stubFail6 [5, 6] 1 =
      .ok ⟨['H', '\n', 'r'], [1], [[5], [6]], 1⟩ ∧
    (List.Pairwise (· < ·)
        (⟨['H', '\n', 'r'], [1], [[5], [6]], 1⟩ : PropsRun).failed_chunks ∧
      (⟨['H', '\n', 'r'], [1], [[5], [6]], 1⟩ : PropsRun).failed_chunks.Nodup) :=
  ⟨by decide,
    c7_failed_chunks stubFail6 [5, 6] 1 ⟨['H', '\n', 'r'], [1], [[5], [6]], 1⟩
      (by decide)⟩

/-- C8 counterexample: with a non-empty list and `chunk_size = 0` the
batch retrieval raises `ZeroDivisionError` from
`ceil(len(cid_list) / chunk_size)` — there is no up-front detection or
report and no neutral result, contrary to the claim. -/
theorem c8_counterexample :
    pubchem_properties_for_cids (fun _ => none) [1] 0 =
      .error ("ZeroDivisionError: division by zero").data := by
  decide

/-- C8 (amended): the batch retrieval does not validate `chunk_size`:
for negative `chunk_size` it silently returns `("", [])` with zero
transport calls (no detection, no report), and for `chunk_size = 0` it
raises `ZeroDivisionError`; the `chunk_list` helper in
`cinf26pk.core.utils` does validate (raising `ValueError` for
non-positive sizes) but is not called by the batch retrieval. -/
theorem c8_invalid_chunk_size (net : List Int → Option PyStr)
    (l : List Int) (cs : Int) (hl : l ≠ []) (hcs : cs < 0) :
    pubchem_properties_for_cids net l cs = .ok ⟨[], [], [], 0⟩ ∧
    pubchem_properties_for_cids net l 0 =
      .error ("ZeroDivisionError: division by zero").data ∧
    (∀ (m : List Int) (s : Int), s ≤ 0 →
      chunk_list m s =
        .error ("ValueError: chunk size must be a positive integer").data) := by
  refine ⟨?_, ?_, fun m s hs => ?_⟩
  · rw [pubchem_properties_for_cids, if_neg hl, if_neg (by omega)]
    have h0 : (numChunksZ l.length cs).toNat = 0 :=
      Int.toNat_of_nonpos (numChunksZ_nonpos_of_neg hcs)
    rw [h0]
    rfl
  · rw [pubchem_properties_for_cids, if_neg hl, if_pos rfl]
  · rw [chunk_list, if_pos hs]

/-- C8 witness: the amended claim applied to `[7]` with
`chunk_size = -2`. -/
theorem c8_witness :
    ([7] : List Int) ≠ [] ∧ (-2 : Int) < 0 ∧
    (pubchem_properties_for_cids (fun _ => none) [7] (-2) =
        .ok ⟨[], [], [], 0⟩ ∧
      pubchem_properties_for_cids (fun _ => none) [7] 0 =
        .error ("ZeroDivisionError: division by zero").data ∧
      (∀ (m : List Int) (s : Int), s ≤ 0 →
        chunk_list m s =
          .error ("ValueError: chunk size must be a positive integer").data)) :=
  ⟨by decide, by decide,
    c8_invalid_chunk_size (fun _ => none) [7] (-2) (by decide) (by decide)⟩

/-- C9 counterexample: on the JSON object `{"5": null}` the loop calls
`int(None)`, which raises `TypeError`; the `except ValueError` clause
does not catch it, so the function raises instead of skipping the entry
with a warning as the claim states. -/
theorem c9_counterexample :
    load_cid_dict [(['5'], Json.null)] = .error PyErr.typeError := by
  decide

/-- C9 (amended): entries whose key or value conversion raises
`ValueError` (non-numeric strings) are skipped with a warning and do
not raise; but the guarantee only holds when no value is JSON `null`
(a `null` value raises an uncaught `TypeError`).  Under that condition
the function returns exactly the fold that keeps each convertible
entry. -/
theorem c9_load_cid_dict (data : List (PyStr × Json))
    (h : ∀ p ∈ data, p.2 ≠ Json.null) :
    load_cid_dict data = .ok (goodEntries data) :=
  loadLoop_no_null data [] h

/-- C9 witness: a three-entry object with one good entry, one
non-numeric key and one non-numeric string value loads to the single
good entry `(5, 7)` without raising. -/
theorem c9_witness :
    (∀ p ∈ ([(['5'], Json.str ['7']), (['x'], Json.int 3),
        (['8'], Json.str ['a'])] : List (PyStr × Json)), p.2 ≠ Json.null) ∧
    load_cid_dict [(['5'], Json.str ['7']), (['x'], Json.int 3),
        (['8'], Json.str ['a'])] =
      .ok (goodEntries [(['5'], Json.str ['7']), (['x'], Json.int 3),
        (['8'], Json.str ['a'])]) ∧
    goodEntries [(['5'], Json.str ['7']), (['x'], Json.int 3),
        (['8'], Json.str ['a'])] = [(5, 7)] :=
  ⟨by decide,
    c9_load_cid_dict [(['5'], Json.str ['7']), (['x'], Json.int 3),
      (['8'], Json.str ['a'])] (by decide),
    by decide⟩

/-- C10: for every non-blank SMILES string, `pubchem_fastidentity`
selects the GET request (URL-encoded SMILES and identity type as query
parameters, no payload) exactly when `method.lower() == "get"`, and for
every other method string selects the POST request with the identity
type in the URL and payload `{"smiles": smiles}`. -/
theorem c10_method_dispatch (quote : PyStr → PyStr)
    (smiles identity_type method : PyStr) (h : pyBlank smiles = false) :
    pubchem_fastidentity_request quote smiles identity_type method =
      some (if pyLower method = ("get").data
        then HttpCall.get (fastidentityGetUrl quote smiles identity_type)
        else HttpCall.post (fastidentityPostUrl identity_type)
          [(("smiles").data, smiles)]) ∧
    ((∃ u, pubchem_fastidentity_request quote smiles identity_type method =
        some (HttpCall.get u)) ↔ pyLower method = ("get").data) := by
  rw [pubchem_fastidentity_request, if_neg (by simp [h])]
  constructor
  · split_ifs with hm <;> rfl
  · constructor
    · rintro ⟨u, hu⟩
      by_contra hm
      rw [if_neg hm] at hu
      simp at hu
    · intro hm
      rw [if_pos hm]
      exact ⟨_, rfl⟩

/-- C10 witness: with SMILES `"CCO"`, method `"PUT"` dispatches to the
POST path and method `"GeT"` dispatches to the GET path. -/
theorem c10_witness :
    pyBlank ['C', 'C', 'O'] = false ∧
    (pubchem_fastidentity_request id ['C', 'C', 'O'] ['t'] ['P', 'U', 'T'] =
        some (if pyLower ['P', 'U', 'T'] = ("get").data
          then HttpCall.get (fastidentityGetUrl id ['C', 'C', 'O'] ['t'])
          else HttpCall.post (fastidentityPostUrl ['t'])
            [(("smiles").data, ['C', 'C', 'O'])]) ∧
      ((∃ u, pubchem_fastidentity_request id ['C', 'C', 'O'] ['t']
          ['P', 'U', 'T'] = some (HttpCall.get u)) ↔
        pyLower ['P', 'U', 'T'] = ("get").data)) ∧
    pubchem_fastidentity_request id ['C', 'C', 'O'] ['t'] ['P', 'U', 'T'] =
      some (HttpCall.post (fastidentityPostUrl ['t'])
        [(("smiles").data, ['C', 'C', 'O'])]) ∧
    pubchem_fastidentity_request id ['C', 'C', 'O'] ['t'] ['G', 'e', 'T'] =
      some (HttpCall.get (fastidentityGetUrl id ['C', 'C', 'O'] ['t'])) :=
  ⟨by decide,
    c10_method_dispatch id ['C', 'C', 'O'] ['t'] ['P', 'U', 'T'] (by decide),
    by decide, by decide⟩

end Cinf26
